import Mathlib

/-!
Verification of the quiz-app answer-state and view-derivation engine.

The definitions below are a shallow embedding of the React/TypeScript source
(`types.ts` and `App.tsx`): the question catalog and answer-ledger data model,
the localStorage migration, the derived summary / wrong-question / search /
visible-index computations, and the user-action handlers, modelled as pure
functions over an explicit application state.  JavaScript strings are modelled
by Lean `String`, with JS `toLowerCase`, `trim` and `includes` embedded as
executable functions over the character list, and JS `number` score values
modelled by `Int`.
-/

/-! ### JavaScript string primitives -/

/-- Embedding of JS `String.prototype.toLowerCase` (per-character lowering). -/
def jsToLower (s : String) : String := ⟨s.data.map Char.toLower⟩

/-- Embedding of JS `String.prototype.trim`: drop whitespace from both ends. -/
def jsTrim (s : String) : String :=
  ⟨((s.data.dropWhile Char.isWhitespace).reverse.dropWhile Char.isWhitespace).reverse⟩

/-- `listStartsWith p l` is true when `p` is an initial segment of `l`. -/
def listStartsWith : List Char → List Char → Bool
  | [], _ => true
  | _ :: _, [] => false
  | a :: ps, b :: ls => a == b && listStartsWith ps ls

/-- `listContainsSub needle hay` is true when `needle` occurs contiguously in `hay`. -/
def listContainsSub (needle : List Char) : List Char → Bool
  | [] => listStartsWith needle []
  | b :: ls => listStartsWith needle (b :: ls) || listContainsSub needle ls

/-- Embedding of JS `String.prototype.includes`: substring containment. -/
def strIncludes (s pat : String) : Bool := listContainsSub pat.data s.data

/-- Embedding of JS `Array.prototype.join(' ')` on an array of strings. -/
def joinSpace : List String → String
  | [] => ""
  | [s] => s
  | s :: rest => s ++ " " ++ joinSpace rest

/-! ### Data model (`types.ts`) -/

/-- One selectable option of a question (`QuestionOption`). -/
structure QuestionOption where
  label : String
  text : String
deriving DecidableEq, Repr

/-- The designated correct answer of a question (`QuestionAnswer`). -/
structure QuestionAnswer where
  label : String
  text : String
deriving DecidableEq, Repr

/-- A catalog question (`QuestionItem`); the JS `number | null` score is `Option Int`. -/
structure QuestionItem where
  id : Int
  question : String
  score : Option Int
  options : List QuestionOption
  answer : QuestionAnswer
deriving DecidableEq, Repr

/-- One answer-ledger entry (`UserAnswer`). -/
structure UserAnswer where
  choice : Option String
  correct : Option Bool
deriving DecidableEq, Repr

/-- The view mode (`type ViewMode = 'all' | 'wrong'`). -/
inductive ViewMode where
  | all
  | wrong
deriving DecidableEq, Repr

/-- The component state of `App` that the handlers read and write. -/
structure AppState where
  userAnswers : List UserAnswer
  currentIndex : Nat
  viewMode : ViewMode
  statusMessage : Option String
  searchQuery : String
deriving DecidableEq, Repr

/-! ### Storage initialisation and migration (`App.tsx`) -/

/-- `getInitialAnswers`: `size` fresh `{choice: null, correct: null}` records. -/
def getInitialAnswers (size : Nat) : List UserAnswer :=
  (List.range size).map (fun _ => ⟨none, none⟩)

/-- `loadAnswersFromStorage`: reconcile a persisted ledger (`none` when absent
or unreadable) against the current catalog size. -/
def loadAnswersFromStorage (saved : Option (List UserAnswer)) (size : Nat) : List UserAnswer :=
  match saved with
  | some parsed =>
    if parsed.length = size then parsed
    else if parsed.length < size then parsed ++ getInitialAnswers (size - parsed.length)
    else parsed.take size
  | none => getInitialAnswers size

/-! ### Derived data: summary, wrong set, search set, visible set -/

/-- The object computed by the `summary` memo. -/
structure Summary where
  answeredCount : Nat
  correctCount : Nat
  wrongCount : Nat
  totalScore : Int
  fullScore : Int
deriving DecidableEq, Repr

/-- The `summary` memo: counts and score totals derived from catalog and ledger.
`item.correct !== null` is `Option.isSome`; the truthiness test `item?.correct`
is `Option.getD false`; `questions[index]?.score ?? 0` is the bind-then-default. -/
def summary (questions : List QuestionItem) (userAnswers : List UserAnswer) : Summary :=
  { answeredCount := (userAnswers.filter (fun item => item.correct.isSome)).length
    correctCount := (userAnswers.filter (fun item => item.correct.getD false)).length
    wrongCount := (userAnswers.filter (fun item => item.correct == some false)).length
    totalScore :=
      (userAnswers.enum).foldl
        (fun acc p =>
          if p.2.correct.getD false then acc + ((questions[p.1]?).bind QuestionItem.score).getD 0
          else acc) 0
    fullScore := questions.foldl (fun acc question => acc + question.score.getD 0) 0 }

/-- Generic embedding of the `reduce`-and-`push` idiom collecting the indices
whose element satisfies `P`, in ascending index order. -/
def collectIndices {α : Type} (P : α → Bool) (l : List α) : List Nat :=
  ((l.enum.filter (fun p => P p.2)).map Prod.fst)

/-- The `wrongQuestionIndices` memo: indices whose entry has `correct === false`. -/
def wrongQuestionIndices (userAnswers : List UserAnswer) : List Nat :=
  collectIndices (fun answer => answer.correct == some false) userAnswers

/-- The per-question match test inside the `searchResultIndices` memo: the
lowercase question text, or the lowercase option texts joined by a single
space, contains `query` as a substring. -/
def searchMatches (question : QuestionItem) (query : String) : Bool :=
  strIncludes (jsToLower question.question) query
    || strIncludes (joinSpace (question.options.map (fun opt => jsToLower opt.text))) query

/-- The `searchResultIndices` memo.  Note the source lowercases but does NOT
trim the query used for matching; only the emptiness test trims. -/
def searchResultIndices (questions : List QuestionItem) (searchQuery : String) : List Nat :=
  if jsTrim searchQuery = "" then (List.range questions.length)
  else collectIndices (fun question => searchMatches question (jsToLower searchQuery)) questions

/-- The `visibleIndices` memo: base set by view mode, then search filtering. -/
def visibleIndices (questions : List QuestionItem) (userAnswers : List UserAnswer)
    (viewMode : ViewMode) (searchQuery : String) : List Nat :=
  let indices :=
    if viewMode = ViewMode.wrong then wrongQuestionIndices userAnswers
    else if jsTrim searchQuery = "" then List.range questions.length
    else searchResultIndices questions searchQuery
  if jsTrim searchQuery = "" then indices
  else indices.filter (fun idx => (searchResultIndices questions searchQuery).contains idx)

/-- `visibleIndices` read off an application state. -/
def visibleIndicesOf (questions : List QuestionItem) (s : AppState) : List Nat :=
  visibleIndices questions s.userAnswers s.viewMode s.searchQuery

/-! ### Navigation cursor -/

/-- Embedding of JS `Array.prototype.indexOf`: first index of `x`, or `-1`. -/
def jsIndexOf (l : List Nat) (x : Nat) : Int :=
  match l with
  | [] => -1
  | a :: rest =>
    if a = x then 0
    else if jsIndexOf rest x = -1 then -1 else jsIndexOf rest x + 1

/-- The `currentVisiblePosition` memo: `visibleIndices.indexOf(currentIndex)`. -/
def currentVisiblePosition (questions : List QuestionItem) (s : AppState) : Int :=
  jsIndexOf (visibleIndicesOf questions s) s.currentIndex

/-- The `previousIndex` computation: the visible entry before the cursor, if any. -/
def previousIndex (questions : List QuestionItem) (s : AppState) : Option Nat :=
  if 0 < currentVisiblePosition questions s then
    (visibleIndicesOf questions s)[(currentVisiblePosition questions s).toNat - 1]?
  else none

/-- The `nextIndex` computation: the visible entry after the cursor, if any. -/
def nextIndex (questions : List QuestionItem) (s : AppState) : Option Nat :=
  if currentVisiblePosition questions s ≠ -1
      ∧ currentVisiblePosition questions s < ((visibleIndicesOf questions s).length : Int) - 1 then
    (visibleIndicesOf questions s)[(currentVisiblePosition questions s).toNat + 1]?
  else none

/-! ### Action handlers -/

/-- The hint text set by `handleSubmit` when no option is selected. -/
def validationHint : String := "请先选择一个选项"

/-- `selectedChoice = currentAnswer?.choice ?? null`. -/
def selectedChoiceOf (s : AppState) : Option String :=
  (s.userAnswers[s.currentIndex]?).bind UserAnswer.choice

/-- JS falsiness of a `string | null` value: `null` and `""` are falsy. -/
def jsFalsyChoice : Option String → Bool
  | none => true
  | some str => str == ""

/-- `handleSelect`: record the clicked option label, keep the graded flag. -/
def handleSelect (choice : String) (s : AppState) : AppState :=
  { s with
    userAnswers :=
      s.userAnswers.set s.currentIndex
        ⟨some choice, (s.userAnswers[s.currentIndex]?).bind UserAnswer.correct⟩
    statusMessage := none }

/-- `handleSubmit`: no-op without a current question; validation hint when the
selected choice is falsy (`null` or `""`); otherwise grade the current entry. -/
def handleSubmit (questions : List QuestionItem) (s : AppState) : AppState :=
  match questions[s.currentIndex]? with
  | none => s
  | some currentQuestion =>
    match selectedChoiceOf s with
    | none => { s with statusMessage := some validationHint }
    | some choiceStr =>
      if choiceStr == "" then { s with statusMessage := some validationHint }
      else
        { s with
          userAnswers :=
            s.userAnswers.set s.currentIndex
              ⟨some choiceStr, some (choiceStr == currentQuestion.answer.label)⟩ }

/-- `handleResetQuestion`: clear the current entry back to `{null, null}`. -/
def handleResetQuestion (s : AppState) : AppState :=
  { s with
    userAnswers := s.userAnswers.set s.currentIndex ⟨none, none⟩
    statusMessage := none }

/-- `handlePrevious`: move to the previous visible question, no-op when absent. -/
def handlePrevious (questions : List QuestionItem) (s : AppState) : AppState :=
  match previousIndex questions s with
  | none => s
  | some p => { s with currentIndex := p, statusMessage := none }

/-- `handleNext`: move to the next visible question, no-op when absent. -/
def handleNext (questions : List QuestionItem) (s : AppState) : AppState :=
  match nextIndex questions s with
  | none => s
  | some n => { s with currentIndex := n, statusMessage := none }

/-- `handleJump`: set the cursor unconditionally. -/
def handleJump (index : Nat) (s : AppState) : AppState :=
  { s with currentIndex := index, statusMessage := none }

/-- `handleToggleView`: flip the view mode (the raw click handler). -/
def handleToggleView (viewMode : ViewMode) : ViewMode :=
  match viewMode with
  | ViewMode.all => ViewMode.wrong
  | ViewMode.wrong => ViewMode.all

/-- The `disabled` condition of the toggle button in `App`'s render:
`viewMode === 'all' && summary.wrongCount === 0`. -/
def toggleViewDisabled (questions : List QuestionItem) (userAnswers : List UserAnswer)
    (viewMode : ViewMode) : Bool :=
  decide (viewMode = ViewMode.all) && decide ((summary questions userAnswers).wrongCount = 0)

/-- The toggle-mode operation as exposed to the user: a disabled button cannot
fire its click handler, so the flip happens only when not disabled. -/
def toggleMode (questions : List QuestionItem) (userAnswers : List UserAnswer)
    (viewMode : ViewMode) : ViewMode :=
  if toggleViewDisabled questions userAnswers viewMode then viewMode
  else handleToggleView viewMode

/-- The guarded toggle as a state transformer. -/
def handleToggleViewState (questions : List QuestionItem) (s : AppState) : AppState :=
  { s with viewMode := toggleMode questions s.userAnswers s.viewMode }

/-- `handleClearSearch`: empty the query, clear the hint. -/
def handleClearSearch (s : AppState) : AppState :=
  { s with searchQuery := "", statusMessage := none }

/-- The search input's `onChange`: replace the query. -/
def setSearchQueryState (q : String) (s : AppState) : AppState :=
  { s with searchQuery := q }

/-- `handleClearRecords` (confirmation accepted): fresh ledger, hint cleared. -/
def handleClearRecords (questions : List QuestionItem) (s : AppState) : AppState :=
  { s with userAnswers := getInitialAnswers questions.length, statusMessage := none }

/-! ### The settling effect and the event loop -/

/-- The `useEffect` that re-homes the cursor: in wrong-only mode with a
non-empty wrong set, a cursor outside the wrong set is moved to its head. -/
def settleCursor (s : AppState) : AppState :=
  if s.viewMode ≠ ViewMode.wrong then s
  else
    match wrongQuestionIndices s.userAnswers with
    | [] => s
    | w :: ws =>
      if (w :: ws).contains s.currentIndex then s else { s with currentIndex := w }

/-- The discrete user actions that mutate the state. -/
inductive UserAction where
  | select (choice : String)
  | submit
  | reset
  | previous
  | next
  | jump (index : Nat)
  | toggleView
  | clearSearch
  | setSearch (q : String)
  | clearRecords
deriving DecidableEq, Repr

/-- Dispatch one action to its handler. -/
def applyAction (questions : List QuestionItem) (a : UserAction) (s : AppState) : AppState :=
  match a with
  | UserAction.select choice => handleSelect choice s
  | UserAction.submit => handleSubmit questions s
  | UserAction.reset => handleResetQuestion s
  | UserAction.previous => handlePrevious questions s
  | UserAction.next => handleNext questions s
  | UserAction.jump index => handleJump index s
  | UserAction.toggleView => handleToggleViewState questions s
  | UserAction.clearSearch => handleClearSearch s
  | UserAction.setSearch q => setSearchQueryState q s
  | UserAction.clearRecords => handleClearRecords questions s

/-- One settled step of the event loop: the action, then the cursor effect. -/
def step (questions : List QuestionItem) (a : UserAction) (s : AppState) : AppState :=
  settleCursor (applyAction questions a s)

/-- Run a sequence of settled steps. -/
def runActions (questions : List QuestionItem) (actions : List UserAction) (s : AppState) : AppState :=
  actions.foldl (fun st a => step questions a st) s

/-! ### The spec's wording of the search predicate (for comparison with the code) -/

/-- The search-match predicate exactly as the spec words it: the lowercase
question text, or the space-joined lowercase option texts, contains the
lowercase TRIMMED query as a substring.  This follows the spec's words, not
the source, and is compared against `searchMatches`/`searchResultIndices`. -/
def specSearchMatches (question : QuestionItem) (searchQuery : String) : Bool :=
  strIncludes (jsToLower question.question) (jsToLower (jsTrim searchQuery))
    || strIncludes (joinSpace (question.options.map (fun opt => jsToLower opt.text)))
        (jsToLower (jsTrim searchQuery))

/-! ### Sample data for witnesses -/

/-- A small sample catalog: three questions with scores 1, 2 and null. -/
def sampleQuestions : List QuestionItem :=
  [⟨1, "alpha beta", some 1, [⟨"A", "one"⟩, ⟨"B", "two"⟩], ⟨"A", "one"⟩⟩,
   ⟨2, "gamma", some 2, [⟨"B", "three"⟩, ⟨"C", "four"⟩], ⟨"C", "four"⟩⟩,
   ⟨3, "delta", none, [⟨"A", "five"⟩], ⟨"A", "five"⟩⟩]

/-- A sample ledger: answered-wrong, answered-right, untouched. -/
def sampleAnswers : List UserAnswer :=
  [⟨some "B", some false⟩, ⟨some "C", some true⟩, ⟨none, none⟩]

/-! ### Helper lemmas -/

/-- `getInitialAnswers` is `size` copies of the fresh record. -/
theorem getInitialAnswers_eq_replicate (size : Nat) :
    getInitialAnswers size = List.replicate size ⟨none, none⟩ := by
  unfold getInitialAnswers
  induction size with
  | zero => rfl
  | succ n ih =>
    rw [List.range_succ, List.map_append, ih, List.replicate_succ']
    rfl

/-- An in-bounds `List.set` stores the value at the written index. -/
theorem getElem?_set_of_lt {α : Type} (l : List α) (i : Nat) (v : α) (h : i < l.length) :
    (l.set i v)[i]? = some v := by
  have h' : i < (l.set i v).length := by simpa using h
  rw [List.getElem?_eq_getElem h']
  simp [List.getElem_set_self]

/-- The `wrongCount` field of the summary is zero exactly when no ledger entry
is graded wrong. -/
theorem wrongCount_eq_zero_iff (questions : List QuestionItem) (userAnswers : List UserAnswer) :
    (summary questions userAnswers).wrongCount = 0
      ↔ ∀ a ∈ userAnswers, ¬ a.correct = some false := by
  simp [summary, List.length_eq_zero, List.filter_eq_nil_iff]

/-! ### C3: ledger migration -/

/-- C3: `migrate(persisted, catalogSize)` (the code's `loadAnswersFromStorage`)
always returns a ledger of length exactly `catalogSize`; with no persisted
ledger it returns fresh `{null, null}` records; an equal-length persisted
ledger is returned unchanged; a shorter one is extended with fresh records;
a longer one is truncated to the first `catalogSize` entries. -/
theorem c3_migrate_cases (saved : Option (List UserAnswer)) (size : Nat) :
    (loadAnswersFromStorage saved size).length = size
    ∧ loadAnswersFromStorage none size = List.replicate size ⟨none, none⟩
    ∧ (∀ l, saved = some l →
        (l.length = size → loadAnswersFromStorage saved size = l)
        ∧ (l.length < size →
            loadAnswersFromStorage saved size
              = l ++ List.replicate (size - l.length) ⟨none, none⟩)
        ∧ (size < l.length → loadAnswersFromStorage saved size = l.take size)) := by
  refine ⟨?_, ?_, ?_⟩
  · cases saved with
    | none => simp [loadAnswersFromStorage, getInitialAnswers_eq_replicate]
    | some l =>
      unfold loadAnswersFromStorage
      by_cases h1 : l.length = size
      · simp [h1]
      · by_cases h2 : l.length < size
        · simp [h1, h2, getInitialAnswers_eq_replicate]
          omega
        · simp [h1, h2]
          omega
  · simp [loadAnswersFromStorage, getInitialAnswers_eq_replicate]
  · intro l hl
    subst hl
    refine ⟨?_, ?_, ?_⟩
    · intro h1
      simp [loadAnswersFromStorage, h1]
    · intro h2
      have h1 : ¬ l.length = size := by omega
      simp [loadAnswersFromStorage, h1, h2, getInitialAnswers_eq_replicate]
    · intro h3
      have h1 : ¬ l.length = size := by omega
      have h2 : ¬ l.length < size := by omega
      simp [loadAnswersFromStorage, h1, h2]

/-- Witness for C3 at a concrete persisted ledger of length 1 and size 3. -/
theorem c3_migrate_cases_witness :
    loadAnswersFromStorage (some [⟨some "B", some false⟩]) 3
      = [⟨some "B", some false⟩] ++ List.replicate 2 ⟨none, none⟩
    ∧ (loadAnswersFromStorage (some [⟨some "B", some false⟩]) 3).length = 3 :=
  ⟨((c3_migrate_cases (some [⟨some "B", some false⟩]) 3).2.2
      [⟨some "B", some false⟩] rfl).2.1 (by decide),
   (c3_migrate_cases (some [⟨some "B", some false⟩]) 3).1⟩

/-! ### C2: toggle-mode guard -/

/-- C2: the exposed toggle operation flips `WRONG_ONLY → ALL` unconditionally,
flips `ALL → WRONG_ONLY` when some ledger entry is graded wrong, and leaves the
mode at `ALL` when no wrong entry exists (the button is disabled). -/
theorem c2_toggle_guard (questions : List QuestionItem) (userAnswers : List UserAnswer) :
    toggleMode questions userAnswers ViewMode.wrong = ViewMode.all
    ∧ ((∃ a ∈ userAnswers, a.correct = some false) →
        toggleMode questions userAnswers ViewMode.all = ViewMode.wrong)
    ∧ ((¬ ∃ a ∈ userAnswers, a.correct = some false) →
        toggleMode questions userAnswers ViewMode.all = ViewMode.all) := by
  refine ⟨?_, ?_, ?_⟩
  · simp [toggleMode, toggleViewDisabled, handleToggleView]
  · intro h
    have hw : ¬ (summary questions userAnswers).wrongCount = 0 := by
      rw [wrongCount_eq_zero_iff]
      push_neg
      rcases h with ⟨a, ha, hc⟩
      exact ⟨a, ha, hc⟩
    simp [toggleMode, toggleViewDisabled, hw, handleToggleView]
  · intro h
    have hw : (summary questions userAnswers).wrongCount = 0 := by
      rw [wrongCount_eq_zero_iff]
      intro a ha hc
      exact h ⟨a, ha, hc⟩
    simp [toggleMode, toggleViewDisabled, hw, handleToggleView]

/-- Witness for C2: with one wrong entry the toggle enters wrong-only mode. -/
theorem c2_toggle_guard_witness :
    toggleMode sampleQuestions sampleAnswers ViewMode.all = ViewMode.wrong :=
  (c2_toggle_guard sampleQuestions sampleAnswers).2.1
    ⟨⟨some "B", some false⟩, by decide, rfl⟩

/-! ### Index-collection lemmas -/

/-- One unfolding step of the index-collection over `enumFrom`. -/
theorem collect_from_cons {α : Type} (P : α → Bool) (a : α) (t : List α) (n : Nat) :
    ((List.enumFrom n (a :: t)).filter (fun p => P p.2)).map Prod.fst
      = (if P a then [n] else [])
        ++ ((List.enumFrom (n + 1) t).filter (fun p => P p.2)).map Prod.fst := by
  by_cases h : P a <;>
    simp [show List.enumFrom n (a :: t) = (n, a) :: List.enumFrom (n + 1) t from rfl,
      List.filter_cons, h]

/-- Membership characterisation of the index-collection over `enumFrom`. -/
theorem collect_from_mem {α : Type} (P : α → Bool) :
    ∀ (l : List α) (n i : Nat),
      i ∈ ((List.enumFrom n l).filter (fun p => P p.2)).map Prod.fst
        ↔ n ≤ i ∧ ∃ a, l[i - n]? = some a ∧ P a = true := by
  intro l
  induction l with
  | nil => intro n i; simp
  | cons a t ih =>
    intro n i
    rw [collect_from_cons, List.mem_append]
    constructor
    · intro h
      rcases h with h | h
      · have hi : i = n ∧ P a = true := by
          by_cases hp : P a <;> simp [hp] at h
          · exact ⟨h, by assumption⟩
        rcases hi with ⟨rfl, hp⟩
        exact ⟨le_refl _, a, by simp, hp⟩
      · rcases (ih (n + 1) i).mp h with ⟨hle, b, hget, hP⟩
        refine ⟨by omega, b, ?_, hP⟩
        have : i - n = (i - (n + 1)) + 1 := by omega
        rw [this, List.getElem?_cons_succ]
        exact hget
    · rintro ⟨hle, b, hget, hP⟩
      by_cases hin : i = n
      · subst hin
        have : (a :: t)[i - i]? = some a := by simp
        rw [this] at hget
        cases hget
        left
        simp [hP]
      · right
        refine (ih (n + 1) i).mpr ⟨by omega, b, ?_, hP⟩
        have : i - n = (i - (n + 1)) + 1 := by omega
        rw [this, List.getElem?_cons_succ] at hget
        exact hget

/-- Every collected index over `enumFrom n` is at least `n`. -/
theorem collect_from_lb {α : Type} (P : α → Bool) (l : List α) (n : Nat) :
    ∀ i ∈ ((List.enumFrom n l).filter (fun p => P p.2)).map Prod.fst, n ≤ i :=
  fun i hi => ((collect_from_mem P l n i).mp hi).1

/-- The collected indices over `enumFrom` are strictly ascending. -/
theorem collect_from_pairwise {α : Type} (P : α → Bool) :
    ∀ (l : List α) (n : Nat),
      (((List.enumFrom n l).filter (fun p => P p.2)).map Prod.fst).Pairwise (· < ·) := by
  intro l
  induction l with
  | nil => intro n; simp
  | cons a t ih =>
    intro n
    rw [collect_from_cons]
    by_cases h : P a
    · simp only [h, if_pos, List.singleton_append]
      rw [List.pairwise_cons]
      exact ⟨fun b hb => by have := collect_from_lb P t (n + 1) b hb; omega, ih (n + 1)⟩
    · simpa [h] using ih (n + 1)

/-- Membership characterisation of `collectIndices`. -/
theorem collectIndices_mem {α : Type} (P : α → Bool) (l : List α) (i : Nat) :
    i ∈ collectIndices P l ↔ ∃ a, l[i]? = some a ∧ P a = true := by
  have h := collect_from_mem P l 0 i
  simpa [collectIndices, List.enum] using h

/-- `collectIndices` is strictly ascending. -/
theorem collectIndices_pairwise {α : Type} (P : α → Bool) (l : List α) :
    (collectIndices P l).Pairwise (· < ·) :=
  collect_from_pairwise P l 0

/-! ### C1: search indices (corrected — the code matches the UNtrimmed query) -/

/-- Counterexample to C1 as stated: with the catalog `[«foo»]` and the query
`" foo"` (trimmed form `"foo"`, non-empty), the spec's predicate — match
against the lowercase TRIMMED query — holds at index 0, yet the code's
`searchResultIndices` is empty, because the code matches against the
lowercase query without trimming it. -/
theorem c1_search_cex :
    jsTrim " foo" ≠ ""
    ∧ specSearchMatches ⟨1, "foo", none, [], ⟨"A", ""⟩⟩ " foo" = true
    ∧ searchResultIndices [⟨1, "foo", none, [], ⟨"A", ""⟩⟩] " foo" = [] := by
  decide

/-- C1 (amended): for a query whose trimmed form is non-empty,
`searchResultIndices` contains exactly the indices `i` such that the lowercase
question text, or the space-joined lowercase option texts, contains the
lowercase UNTRIMMED query as a substring. -/
theorem c1_search_indices (questions : List QuestionItem) (searchQuery : String)
    (h : jsTrim searchQuery ≠ "") (i : Nat) :
    i ∈ searchResultIndices questions searchQuery
      ↔ ∃ q, questions[i]? = some q
          ∧ (strIncludes (jsToLower q.question) (jsToLower searchQuery) = true
             ∨ strIncludes (joinSpace (q.options.map (fun opt => jsToLower opt.text)))
                 (jsToLower searchQuery) = true) := by
  unfold searchResultIndices
  rw [if_neg h]
  rw [collectIndices_mem]
  constructor
  · rintro ⟨q, hq, hP⟩
    refine ⟨q, hq, ?_⟩
    unfold searchMatches at hP
    rcases (by simpa using hP : strIncludes (jsToLower q.question) (jsToLower searchQuery) = true
        ∨ strIncludes (joinSpace (q.options.map (fun opt => jsToLower opt.text)))
            (jsToLower searchQuery) = true) with h1 | h1
    · exact Or.inl h1
    · exact Or.inr h1
  · rintro ⟨q, hq, hP⟩
    refine ⟨q, hq, ?_⟩
    unfold searchMatches
    rcases hP with h1 | h1 <;> simp [h1]

/-- Witness for C1 (amended): the query `"ALPHA"` matches question 0. -/
theorem c1_search_indices_witness :
    (0 : Nat) ∈ searchResultIndices sampleQuestions "ALPHA" :=
  (c1_search_indices sampleQuestions "ALPHA" (by decide) 0).mpr
    ⟨⟨1, "alpha beta", some 1, [⟨"A", "one"⟩, ⟨"B", "two"⟩], ⟨"A", "one"⟩⟩,
      by decide, Or.inl (by decide)⟩

/-! ### C8: wrong-mode subset and ascending order -/

/-- `searchResultIndices` is strictly ascending in both of its branches. -/
theorem searchResultIndices_pairwise (questions : List QuestionItem) (searchQuery : String) :
    (searchResultIndices questions searchQuery).Pairwise (· < ·) := by
  unfold searchResultIndices
  by_cases hq : jsTrim searchQuery = ""
  · simpa [hq] using List.pairwise_lt_range questions.length
  · rw [if_neg hq]
    exact collectIndices_pairwise _ _

/-- C8: in `WRONG_ONLY` mode every visible index is graded wrong, and in every
mode the visible indices are strictly ascending (hence duplicate-free). -/
theorem c8_visible_subset_sorted (questions : List QuestionItem)
    (userAnswers : List UserAnswer) (viewMode : ViewMode) (searchQuery : String) :
    (viewMode = ViewMode.wrong →
      ∀ i ∈ visibleIndices questions userAnswers viewMode searchQuery,
        ∃ a, userAnswers[i]? = some a ∧ a.correct = some false)
    ∧ (visibleIndices questions userAnswers viewMode searchQuery).Pairwise (· < ·) := by
  constructor
  · intro hm i hi
    subst hm
    have hw : i ∈ wrongQuestionIndices userAnswers := by
      by_cases hq : jsTrim searchQuery = ""
      · simpa [visibleIndices, hq] using hi
      · simp only [visibleIndices, hq, if_false, reduceIte, if_pos rfl] at hi
        exact List.mem_of_mem_filter hi
    rcases (collectIndices_mem _ userAnswers i).mp hw with ⟨a, ha, hP⟩
    exact ⟨a, ha, beq_iff_eq.mp hP⟩
  · by_cases hq : jsTrim searchQuery = ""
    · by_cases hm : viewMode = ViewMode.wrong
      · have h : visibleIndices questions userAnswers viewMode searchQuery
            = wrongQuestionIndices userAnswers := by
          simp [visibleIndices, hq, hm]
        rw [h]
        exact collectIndices_pairwise _ _
      · have h : visibleIndices questions userAnswers viewMode searchQuery
            = List.range questions.length := by
          simp [visibleIndices, hq, hm]
        rw [h]
        exact List.pairwise_lt_range questions.length
    · by_cases hm : viewMode = ViewMode.wrong
      · have h : visibleIndices questions userAnswers viewMode searchQuery
            = (wrongQuestionIndices userAnswers).filter
                (fun idx => (searchResultIndices questions searchQuery).contains idx) := by
          simp [visibleIndices, hq, hm]
        rw [h]
        exact (collectIndices_pairwise _ _).filter _
      · have h : visibleIndices questions userAnswers viewMode searchQuery
            = (searchResultIndices questions searchQuery).filter
                (fun idx => (searchResultIndices questions searchQuery).contains idx) := by
          simp [visibleIndices, hq, hm]
        rw [h]
        exact (searchResultIndices_pairwise questions searchQuery).filter _

/-- Witness for C8 at the sample state: the only visible index in wrong-only
mode is 0, whose entry is graded wrong. -/
theorem c8_visible_subset_sorted_witness :
    ∃ a, sampleAnswers[0]? = some a ∧ a.correct = some false :=
  (c8_visible_subset_sorted sampleQuestions sampleAnswers ViewMode.wrong "").1 rfl 0
    (by decide)

/-! ### C7: summary consistency -/

/-- Folding score additions from an accumulator shifts the empty-accumulator fold. -/
theorem foldl_score_shift (qs : List QuestionItem) :
    ∀ acc : Int,
      qs.foldl (fun a q => a + q.score.getD 0) acc
        = acc + qs.foldl (fun a q => a + q.score.getD 0) 0 := by
  induction qs with
  | nil => intro acc; simp
  | cons q t ih =>
    intro acc
    rw [List.foldl_cons, List.foldl_cons, ih (acc + q.score.getD 0), ih (0 + q.score.getD 0)]
    ring

/-- A sum of non-negative scores is non-negative. -/
theorem foldl_score_nonneg :
    ∀ qs : List QuestionItem, (∀ q ∈ qs, 0 ≤ q.score.getD 0) →
      0 ≤ qs.foldl (fun a q => a + q.score.getD 0) 0 := by
  intro qs
  induction qs with
  | nil => intro _; simp
  | cons q t ih =>
    intro h
    rw [List.foldl_cons, foldl_score_shift]
    have h1 := h q (List.mem_cons_self q t)
    have h2 := ih (fun q' hq' => h q' (List.mem_cons_of_mem q hq'))
    omega

/-- The defaulted score looked up at any position is non-negative when all
catalog scores are. -/
theorem score_at_nonneg (qs : List QuestionItem) (hq : ∀ q ∈ qs, 0 ≤ q.score.getD 0)
    (n : Nat) : 0 ≤ ((qs[n]?).bind QuestionItem.score).getD 0 := by
  cases h : qs[n]? with
  | none => simp
  | some q =>
    rcases List.getElem?_eq_some.mp h with ⟨hlt, hEq⟩
    have hmem : q ∈ qs := hEq ▸ List.getElem_mem hlt
    simpa using hq q hmem

/-- Peeling one index off the tail-sum of scores. -/
theorem drop_score_eq (qs : List QuestionItem) (n : Nat) :
    (qs.drop n).foldl (fun a q => a + q.score.getD 0) 0
      = ((qs[n]?).bind QuestionItem.score).getD 0
        + (qs.drop (n + 1)).foldl (fun a q => a + q.score.getD 0) 0 := by
  by_cases h : n < qs.length
  · rw [List.drop_eq_getElem_cons h, List.foldl_cons, foldl_score_shift]
    rw [List.getElem?_eq_getElem h]
    simp
  · have h1 : qs.drop n = [] := List.drop_eq_nil_of_le (by omega)
    have h2 : qs.drop (n + 1) = [] := List.drop_eq_nil_of_le (by omega)
    have h3 : qs[n]? = none := List.getElem?_eq_none (by omega)
    simp [h1, h2, h3]

/-- The graded-score fold over an enumerated ledger suffix is bounded by the
catalog's tail-sum of scores. -/
theorem totalScore_from_le (qs : List QuestionItem) (hq : ∀ q ∈ qs, 0 ≤ q.score.getD 0) :
    ∀ (as : List UserAnswer) (n : Nat) (acc : Int),
      (List.enumFrom n as).foldl
          (fun a p =>
            if p.2.correct.getD false then a + ((qs[p.1]?).bind QuestionItem.score).getD 0
            else a) acc
        ≤ acc + (qs.drop n).foldl (fun a q => a + q.score.getD 0) 0 := by
  intro as
  induction as with
  | nil =>
    intro n acc
    have := foldl_score_nonneg (qs.drop n) (fun q hmem => hq q (List.drop_subset n qs hmem))
    simp only [List.enumFrom, List.foldl_nil]
    omega
  | cons a t ih =>
    intro n acc
    rw [show List.enumFrom n (a :: t) = (n, a) :: List.enumFrom (n + 1) t from rfl,
      List.foldl_cons]
    have hsn := score_at_nonneg qs hq n
    have hdrop := drop_score_eq qs n
    by_cases hc : a.correct.getD false = true
    · rw [show (if (n, a).2.correct.getD false
            then acc + ((qs[(n, a).1]?).bind QuestionItem.score).getD 0 else acc)
          = acc + ((qs[n]?).bind QuestionItem.score).getD 0 from by simp [hc]]
      have := ih (n + 1) (acc + ((qs[n]?).bind QuestionItem.score).getD 0)
      omega
    · rw [show (if (n, a).2.correct.getD false
            then acc + ((qs[(n, a).1]?).bind QuestionItem.score).getD 0 else acc)
          = acc from by simp [hc]]
      have := ih (n + 1) acc
      omega

/-- C7: in every summary `answeredCount = correctCount + wrongCount`, and when
all catalog scores are non-negative (null read as 0), `totalScore ≤ fullScore`. -/
theorem c7_summary_consistency (questions : List QuestionItem)
    (userAnswers : List UserAnswer) :
    (summary questions userAnswers).answeredCount
        = (summary questions userAnswers).correctCount
          + (summary questions userAnswers).wrongCount
    ∧ ((∀ q ∈ questions, 0 ≤ q.score.getD 0) →
        (summary questions userAnswers).totalScore
          ≤ (summary questions userAnswers).fullScore) := by
  constructor
  · show (userAnswers.filter (fun item => item.correct.isSome)).length
        = (userAnswers.filter (fun item => item.correct.getD false)).length
          + (userAnswers.filter (fun item => item.correct == some false)).length
    induction userAnswers with
    | nil => rfl
    | cons a t ih =>
      rcases ha : a.correct with _ | b
      · simpa [List.filter_cons, ha] using ih
      · cases b <;> simp [List.filter_cons, ha] <;> omega
  · intro hq
    have h := totalScore_from_le questions hq userAnswers 0 0
    rw [List.drop_zero] at h
    show (userAnswers.enum).foldl
        (fun acc p =>
          if p.2.correct.getD false then acc + ((questions[p.1]?).bind QuestionItem.score).getD 0
          else acc) 0
      ≤ questions.foldl (fun acc question => acc + question.score.getD 0) 0
    simpa [List.enum] using h

/-- Witness for C7: the sample catalog has non-negative scores, so the sample
summary satisfies both parts. -/
theorem c7_summary_consistency_witness :
    (summary sampleQuestions sampleAnswers).answeredCount
        = (summary sampleQuestions sampleAnswers).correctCount
          + (summary sampleQuestions sampleAnswers).wrongCount
    ∧ (summary sampleQuestions sampleAnswers).totalScore
        ≤ (summary sampleQuestions sampleAnswers).fullScore :=
  ⟨(c7_summary_consistency sampleQuestions sampleAnswers).1,
   (c7_summary_consistency sampleQuestions sampleAnswers).2 (by decide)⟩

/-! ### C4: submit-requires-selection (corrected — `""` also counts as unselected) -/

/-- Counterexample to C4 as stated: with the empty-string choice selected
(`choice = some ""`, which is NOT null), submit still takes the validation
branch (JS falsiness of `""`) and mutates nothing, so "ValidationError iff no
choice is selected" fails in the only-if direction. -/
theorem c4_submit_cex :
    selectedChoiceOf ⟨[⟨some "", none⟩], 0, ViewMode.all, none, ""⟩ ≠ none
    ∧ handleSubmit sampleQuestions ⟨[⟨some "", none⟩], 0, ViewMode.all, none, ""⟩
        = ⟨[⟨some "", none⟩], 0, ViewMode.all, some validationHint, ""⟩ := by
  decide

/-- C4 (amended): for an in-bounds index, submit yields the validation-error
outcome (hint set, everything else — in particular the ledger — unchanged)
exactly when the selected choice is null OR the empty string; when the choice
is a non-empty string the status message is untouched.  In particular a null
choice yields the validation outcome with the ledger unchanged. -/
theorem c4_submit_validation (questions : List QuestionItem) (s : AppState)
    (h : s.currentIndex < questions.length) :
    (jsFalsyChoice (selectedChoiceOf s) = true →
      handleSubmit questions s = { s with statusMessage := some validationHint })
    ∧ (jsFalsyChoice (selectedChoiceOf s) = false →
      (handleSubmit questions s).statusMessage = s.statusMessage)
    ∧ (selectedChoiceOf s = none →
      handleSubmit questions s = { s with statusMessage := some validationHint }
      ∧ (handleSubmit questions s).userAnswers = s.userAnswers) := by
  have hq : questions[s.currentIndex]? = some questions[s.currentIndex] :=
    List.getElem?_eq_getElem h
  cases hsel : selectedChoiceOf s with
  | none =>
    refine ⟨fun _ => ?_, fun hff => ?_, fun _ => ⟨?_, ?_⟩⟩
    · simp [handleSubmit, hq, hsel]
    · simp [jsFalsyChoice] at hff
    · simp [handleSubmit, hq, hsel]
    · simp [handleSubmit, hq, hsel]
  | some c =>
    by_cases hc : c = ""
    · subst hc
      refine ⟨fun _ => ?_, fun hff => ?_, fun hnone => ?_⟩
      · simp [handleSubmit, hq, hsel]
      · simp [jsFalsyChoice] at hff
      · exact absurd hnone (by simp)
    · have hcb : (c == "") = false := beq_eq_false_iff_ne.mpr hc
      refine ⟨fun htt => ?_, fun _ => ?_, fun hnone => ?_⟩
      · simp [jsFalsyChoice, hcb] at htt
      · simp [handleSubmit, hq, hsel, hcb]
      · exact absurd hnone (by simp)

/-- Witness for C4 at a concrete unselected entry. -/
theorem c4_submit_validation_witness :
    handleSubmit sampleQuestions ⟨[⟨none, none⟩], 0, ViewMode.all, none, ""⟩
      = { userAnswers := [⟨none, none⟩], currentIndex := 0, viewMode := ViewMode.all,
          statusMessage := some validationHint, searchQuery := "" }
    ∧ (handleSubmit sampleQuestions ⟨[⟨none, none⟩], 0, ViewMode.all, none, ""⟩).userAnswers
      = [⟨none, none⟩] :=
  (c4_submit_validation sampleQuestions
    ⟨[⟨none, none⟩], 0, ViewMode.all, none, ""⟩ (by decide)).2.2 (by decide)

/-! ### C5: submit grades the selected choice (corrected — `""` is excluded) -/

/-- Counterexample to C5 as stated: at a non-null but empty choice the claim
demands `correct := some false` (since `"" ≠ "A"`), but the code leaves the
entry ungraded and raises the validation hint instead. -/
theorem c5_submit_cex :
    selectedChoiceOf ⟨[⟨some "", none⟩], 0, ViewMode.all, none, ""⟩ = some ""
    ∧ (handleSubmit sampleQuestions
        ⟨[⟨some "", none⟩], 0, ViewMode.all, none, ""⟩).userAnswers[0]?
        = some ⟨some "", none⟩
    ∧ (handleSubmit sampleQuestions
        ⟨[⟨some "", none⟩], 0, ViewMode.all, none, ""⟩).userAnswers[0]?
        ≠ some ⟨some "", some false⟩ := by
  decide

/-- C5 (amended): for an in-bounds index whose selected choice is non-null and
non-empty, submit stores `correct = (choice == correctAnswer.label)` while
keeping the choice, preserves the ledger length, and re-submitting with the
unchanged choice reproduces the same ledger (idempotence in value). -/
theorem c5_submit_grades (questions : List QuestionItem) (s : AppState)
    (q : QuestionItem) (c : String)
    (hq : questions[s.currentIndex]? = some q)
    (hsel : selectedChoiceOf s = some c) (hne : c ≠ "")
    (hlen : s.currentIndex < s.userAnswers.length) :
    (handleSubmit questions s).userAnswers[s.currentIndex]?
        = some ⟨some c, some (c == q.answer.label)⟩
    ∧ (handleSubmit questions s).userAnswers.length = s.userAnswers.length
    ∧ (handleSubmit questions (handleSubmit questions s)).userAnswers
        = (handleSubmit questions s).userAnswers := by
  have hcb : (c == "") = false := beq_eq_false_iff_ne.mpr hne
  have hsub : handleSubmit questions s
      = { s with userAnswers :=
            s.userAnswers.set s.currentIndex ⟨some c, some (c == q.answer.label)⟩ } := by
    simp [handleSubmit, hq, hsel, hcb]
  refine ⟨?_, ?_, ?_⟩
  · rw [hsub]
    exact getElem?_set_of_lt _ _ _ hlen
  · rw [hsub]
    simp
  · rw [hsub]
    have hsel2 : selectedChoiceOf { s with userAnswers := (s.userAnswers.set s.currentIndex
        ⟨some c, some (c == q.answer.label)⟩) } = some c := by
      unfold selectedChoiceOf
      show ((s.userAnswers.set s.currentIndex
          ⟨some c, some (c == q.answer.label)⟩)[s.currentIndex]?).bind UserAnswer.choice
        = some c
      rw [getElem?_set_of_lt _ _ _ hlen]
      rfl
    simp [handleSubmit, hq, hsel2, hcb, hne, List.set_set]

/-- Witness for C5: submitting the wrong choice `"B"` on question 0 grades it
false and a second submit reproduces the ledger. -/
theorem c5_submit_grades_witness :
    (handleSubmit sampleQuestions
        ⟨[⟨some "B", none⟩, ⟨none, none⟩, ⟨none, none⟩], 0, ViewMode.all, none, ""⟩).userAnswers[0]?
      = some ⟨some "B", some ("B" == "A")⟩
    ∧ (handleSubmit sampleQuestions
        ⟨[⟨some "B", none⟩, ⟨none, none⟩, ⟨none, none⟩], 0, ViewMode.all, none, ""⟩).userAnswers.length
      = 3
    ∧ (handleSubmit sampleQuestions (handleSubmit sampleQuestions
        ⟨[⟨some "B", none⟩, ⟨none, none⟩, ⟨none, none⟩], 0, ViewMode.all, none, ""⟩)).userAnswers
      = (handleSubmit sampleQuestions
        ⟨[⟨some "B", none⟩, ⟨none, none⟩, ⟨none, none⟩], 0, ViewMode.all, none, ""⟩).userAnswers :=
  c5_submit_grades sampleQuestions
    ⟨[⟨some "B", none⟩, ⟨none, none⟩, ⟨none, none⟩], 0, ViewMode.all, none, ""⟩
    ⟨1, "alpha beta", some 1, [⟨"A", "one"⟩, ⟨"B", "two"⟩], ⟨"A", "one"⟩⟩ "B"
    (by decide) (by decide) (by decide) (by decide)

/-! ### C6: single-entry frame of select / submit / reset -/

/-- `handleSubmit` either keeps the ledger or rewrites exactly the current index. -/
theorem submit_answers_shape (questions : List QuestionItem) (s : AppState) :
    (handleSubmit questions s).userAnswers = s.userAnswers
    ∨ ∃ v, (handleSubmit questions s).userAnswers
        = s.userAnswers.set s.currentIndex v := by
  unfold handleSubmit
  cases hq : questions[s.currentIndex]? with
  | none => left; rfl
  | some q =>
    cases hsel : selectedChoiceOf s with
    | none => left; rfl
    | some c =>
      by_cases hc : (c == "") = true
      · left
        simp [hc]
      · right
        exact ⟨⟨some c, some (c == q.answer.label)⟩, by simp [hc]⟩

/-- C6: each ledger mutation applied at an in-bounds index touches at most the
entry at that index and preserves the ledger length; select stores the clicked
label while keeping the graded flag exactly as it was; reset yields the fresh
record unconditionally. -/
theorem c6_mutation_frame (questions : List QuestionItem) (s : AppState) (x : String)
    (hlen : s.currentIndex < s.userAnswers.length) :
    (∀ j, j ≠ s.currentIndex →
      (handleSelect x s).userAnswers[j]? = s.userAnswers[j]?
      ∧ (handleSubmit questions s).userAnswers[j]? = s.userAnswers[j]?
      ∧ (handleResetQuestion s).userAnswers[j]? = s.userAnswers[j]?)
    ∧ (handleSelect x s).userAnswers[s.currentIndex]?
        = some ⟨some x, (s.userAnswers[s.currentIndex]?).bind UserAnswer.correct⟩
    ∧ (handleResetQuestion s).userAnswers[s.currentIndex]? = some ⟨none, none⟩
    ∧ (handleSelect x s).userAnswers.length = s.userAnswers.length
    ∧ (handleSubmit questions s).userAnswers.length = s.userAnswers.length
    ∧ (handleResetQuestion s).userAnswers.length = s.userAnswers.length := by
  refine ⟨?_, ?_, ?_, ?_, ?_, ?_⟩
  · intro j hj
    refine ⟨?_, ?_, ?_⟩
    · show (s.userAnswers.set s.currentIndex _)[j]? = s.userAnswers[j]?
      exact List.getElem?_set_ne (by omega)
    · rcases submit_answers_shape questions s with h | ⟨v, h⟩
      · rw [h]
      · rw [h]
        exact List.getElem?_set_ne (by omega)
    · show (s.userAnswers.set s.currentIndex _)[j]? = s.userAnswers[j]?
      exact List.getElem?_set_ne (by omega)
  · show (s.userAnswers.set s.currentIndex _)[s.currentIndex]? = _
    exact getElem?_set_of_lt _ _ _ hlen
  · show (s.userAnswers.set s.currentIndex _)[s.currentIndex]? = _
    exact getElem?_set_of_lt _ _ _ hlen
  · show (s.userAnswers.set s.currentIndex _).length = s.userAnswers.length
    simp
  · rcases submit_answers_shape questions s with h | ⟨v, h⟩
    · rw [h]
    · rw [h]
      simp
  · show (s.userAnswers.set s.currentIndex _).length = s.userAnswers.length
    simp

/-- Witness for C6 at a concrete two-entry ledger. -/
theorem c6_mutation_frame_witness :
    (handleSelect "A" ⟨[⟨some "B", some false⟩, ⟨some "C", some true⟩], 0,
        ViewMode.all, none, ""⟩).userAnswers[1]?
      = some ⟨some "C", some true⟩
    ∧ (handleSelect "A" ⟨[⟨some "B", some false⟩, ⟨some "C", some true⟩], 0,
        ViewMode.all, none, ""⟩).userAnswers[0]?
      = some ⟨some "A", some false⟩
    ∧ (handleResetQuestion ⟨[⟨some "B", some false⟩, ⟨some "C", some true⟩], 0,
        ViewMode.all, none, ""⟩).userAnswers[0]?
      = some ⟨none, none⟩ :=
  ⟨((c6_mutation_frame sampleQuestions
      ⟨[⟨some "B", some false⟩, ⟨some "C", some true⟩], 0, ViewMode.all, none, ""⟩
      "A" (by decide)).1 1 (by decide)).1,
   (c6_mutation_frame sampleQuestions
      ⟨[⟨some "B", some false⟩, ⟨some "C", some true⟩], 0, ViewMode.all, none, ""⟩
      "A" (by decide)).2.1,
   (c6_mutation_frame sampleQuestions
      ⟨[⟨some "B", some false⟩, ⟨some "C", some true⟩], 0, ViewMode.all, none, ""⟩
      "A" (by decide)).2.2.1⟩

/-! ### C9: navigation targets and silent no-ops -/

/-- `jsIndexOf` never returns anything below `-1`. -/
theorem jsIndexOf_ge_neg_one : ∀ (l : List Nat) (x : Nat), -1 ≤ jsIndexOf l x := by
  intro l
  induction l with
  | nil => intro x; simp [jsIndexOf]
  | cons a t ih =>
    intro x
    have := ih x
    unfold jsIndexOf
    split_ifs <;> omega

/-- `jsIndexOf` returns `-1` exactly on misses. -/
theorem jsIndexOf_eq_neg_one_iff : ∀ (l : List Nat) (x : Nat), jsIndexOf l x = -1 ↔ x ∉ l := by
  intro l
  induction l with
  | nil => intro x; simp [jsIndexOf]
  | cons a t ih =>
    intro x
    unfold jsIndexOf
    by_cases hax : a = x
    · subst hax
      rw [if_pos rfl]
      constructor
      · intro h
        exact absurd h (by omega)
      · intro h
        exact absurd (List.mem_cons_self a t) h
    · by_cases hr : jsIndexOf t x = -1
      · have hmem : x ∉ t := (ih x).mp hr
        rw [if_neg hax, if_pos hr]
        constructor
        · intro _ hmem'
          rcases List.mem_cons.mp hmem' with h | h
          · exact hax h.symm
          · exact hmem h
        · intro _
          rfl
      · have hmem : x ∈ t := by
          by_contra hmem
          exact hr ((ih x).mpr hmem)
        have hge := jsIndexOf_ge_neg_one t x
        rw [if_neg hax, if_neg hr]
        constructor
        · intro h
          exact absurd h (by omega)
        · intro h
          exact absurd (List.mem_cons_of_mem a hmem) h

/-- A non-negative `jsIndexOf` result is an index of the sought element. -/
theorem jsIndexOf_getElem :
    ∀ (l : List Nat) (x : Nat) (n : Nat), jsIndexOf l x = (n : Int) → l[n]? = some x := by
  intro l
  induction l with
  | nil =>
    intro x n h
    rw [show jsIndexOf [] x = -1 from rfl] at h
    exact absurd h (by omega)
  | cons a t ih =>
    intro x n h
    unfold jsIndexOf at h
    by_cases hax : a = x
    · rw [if_pos hax] at h
      have hn : n = 0 := by omega
      subst hn
      simpa using hax
    · rw [if_neg hax] at h
      by_cases hr : jsIndexOf t x = -1
      · rw [if_pos hr] at h
        omega
      · rw [if_neg hr] at h
        have hge := jsIndexOf_ge_neg_one t x
        have hn1 : 1 ≤ n := by omega
        have ht : jsIndexOf t x = ((n - 1 : Nat) : Int) := by omega
        have := ih x (n - 1) ht
        rw [show n = (n - 1) + 1 by omega, List.getElem?_cons_succ]
        exact this

/-- C9: the cursor's position in the visible list is its first index there (or
`-1` when absent); `previousIndex`/`nextIndex` deliver exactly the neighbouring
visible entries and are absent at the edges; `handlePrevious`/`handleNext` are
silent no-ops when their target is absent. -/
theorem c9_navigation (questions : List QuestionItem) (s : AppState) :
    (currentVisiblePosition questions s = -1 ↔ s.currentIndex ∉ visibleIndicesOf questions s)
    ∧ (∀ n : Nat, currentVisiblePosition questions s = (n : Int) →
        (visibleIndicesOf questions s)[n]? = some s.currentIndex)
    ∧ (0 < currentVisiblePosition questions s →
        ∃ v, previousIndex questions s = some v
          ∧ (visibleIndicesOf questions s)[(currentVisiblePosition questions s).toNat - 1]?
              = some v)
    ∧ (currentVisiblePosition questions s ≤ 0 → previousIndex questions s = none)
    ∧ (currentVisiblePosition questions s ≠ -1 →
        currentVisiblePosition questions s < ((visibleIndicesOf questions s).length : Int) - 1 →
        ∃ v, nextIndex questions s = some v
          ∧ (visibleIndicesOf questions s)[(currentVisiblePosition questions s).toNat + 1]?
              = some v)
    ∧ (¬(currentVisiblePosition questions s ≠ -1
          ∧ currentVisiblePosition questions s
              < ((visibleIndicesOf questions s).length : Int) - 1) →
        nextIndex questions s = none)
    ∧ (previousIndex questions s = none → handlePrevious questions s = s)
    ∧ (nextIndex questions s = none → handleNext questions s = s) := by
  refine ⟨?_, ?_, ?_, ?_, ?_, ?_, ?_, ?_⟩
  · exact jsIndexOf_eq_neg_one_iff (visibleIndicesOf questions s) s.currentIndex
  · intro n h
    exact jsIndexOf_getElem (visibleIndicesOf questions s) s.currentIndex n h
  · intro hpos
    have hnn : 0 ≤ currentVisiblePosition questions s := by omega
    have hn : currentVisiblePosition questions s
        = ((currentVisiblePosition questions s).toNat : Int) :=
      (Int.toNat_of_nonneg hnn).symm
    have hget := jsIndexOf_getElem (visibleIndicesOf questions s) s.currentIndex
      (currentVisiblePosition questions s).toNat hn
    have hlt : (currentVisiblePosition questions s).toNat
        < (visibleIndicesOf questions s).length := (List.getElem?_eq_some.mp hget).1
    have hlt1 : (currentVisiblePosition questions s).toNat - 1
        < (visibleIndicesOf questions s).length := by omega
    refine ⟨(visibleIndicesOf questions s)[(currentVisiblePosition questions s).toNat - 1], ?_, ?_⟩
    · unfold previousIndex
      rw [if_pos hpos, List.getElem?_eq_getElem hlt1]
    · rw [List.getElem?_eq_getElem hlt1]
  · intro hle
    unfold previousIndex
    rw [if_neg (by omega)]
  · intro hne hlt
    have hnn : 0 ≤ currentVisiblePosition questions s := by
      have := jsIndexOf_ge_neg_one (visibleIndicesOf questions s) s.currentIndex
      unfold currentVisiblePosition at *
      omega
    have hlt1 : (currentVisiblePosition questions s).toNat + 1
        < (visibleIndicesOf questions s).length := by omega
    refine ⟨(visibleIndicesOf questions s)[(currentVisiblePosition questions s).toNat + 1], ?_, ?_⟩
    · unfold nextIndex
      rw [if_pos ⟨hne, hlt⟩, List.getElem?_eq_getElem hlt1]
    · rw [List.getElem?_eq_getElem hlt1]
  · intro hcond
    unfold nextIndex
    rw [if_neg hcond]
  · intro h
    simp [handlePrevious, h]
  · intro h
    simp [handleNext, h]

/-- Witness for C9: with visible list `[0, 1, 2]` and cursor `1`, the previous
and next targets are the neighbouring visible entries. -/
theorem c9_navigation_witness :
    (∃ v, previousIndex sampleQuestions ⟨sampleAnswers, 1, ViewMode.all, none, ""⟩ = some v
      ∧ (visibleIndicesOf sampleQuestions ⟨sampleAnswers, 1, ViewMode.all, none, ""⟩)[
          (currentVisiblePosition sampleQuestions
            ⟨sampleAnswers, 1, ViewMode.all, none, ""⟩).toNat - 1]? = some v)
    ∧ (∃ v, nextIndex sampleQuestions ⟨sampleAnswers, 1, ViewMode.all, none, ""⟩ = some v
      ∧ (visibleIndicesOf sampleQuestions ⟨sampleAnswers, 1, ViewMode.all, none, ""⟩)[
          (currentVisiblePosition sampleQuestions
            ⟨sampleAnswers, 1, ViewMode.all, none, ""⟩).toNat + 1]? = some v) :=
  ⟨(c9_navigation sampleQuestions ⟨sampleAnswers, 1, ViewMode.all, none, ""⟩).2.2.1 (by decide),
   (c9_navigation sampleQuestions
      ⟨sampleAnswers, 1, ViewMode.all, none, ""⟩).2.2.2.2.1 (by decide) (by decide)⟩

/-! ### C10: the wrong-mode cursor invariant of settled states -/

/-- Any state is invariant-satisfying right after the cursor effect settles. -/
theorem settleCursor_invariant (s : AppState) :
    (settleCursor s).viewMode = ViewMode.wrong →
    wrongQuestionIndices (settleCursor s).userAnswers ≠ [] →
    (settleCursor s).currentIndex ∈ wrongQuestionIndices (settleCursor s).userAnswers := by
  unfold settleCursor
  split
  next hm =>
    intro h1 _
    exact absurd h1 hm
  next hm =>
    split
    next hw =>
      intro _ h2
      exact absurd hw h2
    next w ws hw =>
      split
      next hc =>
        intro _ _
        rw [hw]
        exact List.elem_iff.mp hc
      next hc =>
        intro _ _
        show w ∈ wrongQuestionIndices s.userAnswers
        rw [hw]
        exact List.mem_cons_self w ws

/-- A run of settled steps lands on a settled state. -/
theorem runActions_settled (questions : List QuestionItem) :
    ∀ (actions : List UserAction) (s0 : AppState),
      ∃ t, runActions questions actions (settleCursor s0) = settleCursor t := by
  intro actions
  induction actions with
  | nil => intro s0; exact ⟨s0, rfl⟩
  | cons a as ih =>
    intro s0
    have h : runActions questions (a :: as) (settleCursor s0)
        = runActions questions as (settleCursor (applyAction questions a (settleCursor s0))) :=
      rfl
    rw [h]
    exact ih (applyAction questions a (settleCursor s0))

/-- C10: the cursor auto-correction re-homes an outside cursor to the head of
the wrong set, and after any sequence of settled steps from any settled start,
`mode = WRONG_ONLY ∧ wrongIndices ≠ []` implies the cursor is in `wrongIndices`
— the invariant of every reachable settled state. -/
theorem c10_settled_cursor_invariant :
    (∀ s : AppState, s.viewMode = ViewMode.wrong →
      ∀ w ws, wrongQuestionIndices s.userAnswers = w :: ws →
        s.currentIndex ∉ wrongQuestionIndices s.userAnswers →
        (settleCursor s).currentIndex = w)
    ∧ (∀ (questions : List QuestionItem) (actions : List UserAction) (s0 : AppState),
        (runActions questions actions (settleCursor s0)).viewMode = ViewMode.wrong →
        wrongQuestionIndices (runActions questions actions (settleCursor s0)).userAnswers ≠ [] →
        (runActions questions actions (settleCursor s0)).currentIndex
          ∈ wrongQuestionIndices (runActions questions actions (settleCursor s0)).userAnswers) := by
  constructor
  · intro s hm w ws hw hout
    unfold settleCursor
    rw [if_neg (by simp [hm])]
    split
    next hw2 =>
      rw [hw2] at hw
      exact absurd hw (by simp)
    next w2 ws2 hw2 =>
      split
      next hc =>
        exact absurd (by rw [hw2]; exact List.elem_iff.mp hc) hout
      next hc =>
        show w2 = w
        have heq : w2 :: ws2 = w :: ws := hw2.symm.trans hw
        exact (List.cons.inj heq).1
  · intro questions actions s0
    rcases runActions_settled questions actions s0 with ⟨t, ht⟩
    rw [ht]
    exact settleCursor_invariant t

/-- Witness for C10: in wrong-only mode with wrong set `[0]` and cursor `2`,
one settled jump step leaves the cursor inside the wrong set. -/
theorem c10_settled_cursor_invariant_witness :
    (settleCursor ⟨sampleAnswers, 2, ViewMode.wrong, none, ""⟩).currentIndex = 0
    ∧ (runActions sampleQuestions [UserAction.jump 2]
        (settleCursor ⟨sampleAnswers, 2, ViewMode.wrong, none, ""⟩)).currentIndex
      ∈ wrongQuestionIndices (runActions sampleQuestions [UserAction.jump 2]
        (settleCursor ⟨sampleAnswers, 2, ViewMode.wrong, none, ""⟩)).userAnswers :=
  ⟨c10_settled_cursor_invariant.1 ⟨sampleAnswers, 2, ViewMode.wrong, none, ""⟩ rfl 0 []
    (by decide) (by decide),
   c10_settled_cursor_invariant.2 sampleQuestions [UserAction.jump 2]
    ⟨sampleAnswers, 2, ViewMode.wrong, none, ""⟩ (by decide) (by decide)⟩
